import Mathlib

/-!
Shallow embedding of `czech_educational_institutions.py` and verification of
behavioural properties of its pure and effect-modelled parts.

The embedding covers:
* `get_university_type` — row classification by (code, name);
* the row-processing loop of `get_universities` — hierarchy reconstruction
  (`university` / `faculty` / `other` links, the `private` flag, search names);
* `get_locations` — the Nominatim lookup loop, modelled with an explicit
  geocoder oracle, an idealised rational-valued clock (a lookup for address
  `a` takes `dur a` seconds, `time.sleep x` advances the clock by exactly
  `x`, every other operation takes zero time) and a trace of issued requests;
* the geometry-merge step of `get_universities` (default-point fallback);
* `merge_locations` — the inner merge that attaches points to school rows;
* `parse_table_details` — table selection and header extraction, with
  `pandas.read_html`'s ValueError modelled as a parse-failure input and
  uncaught exceptions modelled as `Except.error`;
* `get_chunks` — the near-equal chunk split.

Python strings are modelled as Lean `String` (a list of code points, matching
Python's code-point semantics for `in`, `endswith` and `lower`; `lower` is
ASCII-only here, which is enough for the ASCII needles the code searches for).
Machine floats (coordinates, timestamps) are modelled as `Int`/`ℚ`; the code
performs no float arithmetic whose rounding could matter to the claims.
-/

namespace CzechEdu

/-- Python `pat in s` on code-point lists: `pat` occurs contiguously in `l`. -/
def charsContain (pat : List Char) : List Char → Bool
  | [] => pat.isPrefixOf []
  | c :: rest => pat.isPrefixOf (c :: rest) || charsContain pat rest

/-- Python `pat in s` for strings. -/
def strContains (s pat : String) : Bool :=
  charsContain pat.data s.data

/-- Python `s.lower()` (ASCII letters; the needles searched for are ASCII). -/
def strToLower (s : String) : String :=
  ⟨s.data.map Char.toLower⟩

/-- Python `s.endswith(pat)`. -/
def strEndsWith (s pat : String) : Bool :=
  pat.data.isSuffixOf s.data

/-- A row of the trimmed counts sheet, as consumed by `get_university_type`:
only the `code` and `name` columns are read. -/
structure CRow where
  code : String
  name : String
deriving DecidableEq, Repr

/-- The four-way row taxonomy. -/
inductive UniType where
  | indicator
  | university
  | faculty
  | other
deriving DecidableEq, Repr

/-- `get_university_type` from the source: a code ending in `'000'` is a
university unless it is one of the three reserved codes (indicator rows);
otherwise a name containing `fakulta` (or the misspelling `falulta`) after
lowercasing is a faculty; everything else is `other`. -/
def get_university_type (row : CRow) : UniType :=
  let code := row.code
  let lname := strToLower row.name
  if strEndsWith code "000" then
    if code = "60000" ∨ code = "00000" ∨ code = "10000" then
      UniType.indicator
    else
      UniType.university
  else if strContains lname "fakulta" || strContains lname "falulta" then
    UniType.faculty
  else
    UniType.other

/-- Python `values[a:b]` for `0 ≤ a ≤ b` (the indices produced by
`get_chunks` are of this shape). -/
def pySlice (values : List α) (a b : Nat) : List α :=
  (values.drop a).take (b - a)

/-- `get_chunks` from the source. Each returned element is a singleton list
holding one contiguous chunk (the singleton wrapping feeds `Pool.starmap`).
Python raises `ZeroDivisionError` for `n = 0`; the function is only invoked
with `n > 0`. -/
def get_chunks (values : List α) (n : Nat) : List (List (List α)) :=
  let k := values.length / n
  let m := values.length % n
  (List.range n).map
    (fun i => [pySlice values (i * k + min i m) ((i + 1) * k + min (i + 1) m)])

/-- One processed row: the original `code`/`name` plus the columns assigned
inside the `get_universities` loop.  `private` is stored as Python `int(...)`,
hence `Nat`; columns the loop leaves untouched stay `none` (pandas `NaN`). -/
structure PRow where
  code : String
  name : String
  type : UniType
  university : Option String
  faculty : Option String
  other : Option String
  privateFlag : Nat
  full_name : String
deriving DecidableEq, Repr

/-- One iteration of the row loop in `get_universities`.  State: the last row
classified `university` (`last_uni_row`) and the `private` flag.  Result:
`none` models the `TypeError` Python raises on `last_uni_row["name"]` when an
`other`-typed row arrives while `last_uni_row` is still `None`; otherwise the
processed row together with the updated state. -/
def uniStep (lastUni : Option CRow) (priv : Bool) (row : CRow) :
    Option (PRow × (Option CRow × Bool)) :=
  let priv := priv || (row.code == "60000")
  let pflag : Nat := if priv then 1 else 0
  match get_university_type row, lastUni with
  | UniType.faculty, some lu =>
      some (⟨row.code, row.name, UniType.faculty, some lu.name, some row.name,
             none, pflag, lu.name ++ ", " ++ row.name⟩, (some lu, priv))
  | UniType.faculty, none =>
      some (⟨row.code, row.name, UniType.faculty, none, none,
             none, pflag, row.name⟩, (none, priv))
  | UniType.university, _ =>
      some (⟨row.code, row.name, UniType.university, some row.name, none,
             none, pflag, row.name⟩, (some row, priv))
  | UniType.other, some lu =>
      some (⟨row.code, row.name, UniType.other, some lu.name, none,
             some row.name, pflag, row.name⟩, (some lu, priv))
  | UniType.other, none => none
  | UniType.indicator, _ =>
      some (⟨row.code, row.name, UniType.indicator, none, none,
             none, pflag, row.name⟩, (lastUni, priv))

/-- The row loop of `get_universities`, from an arbitrary state. -/
def uniProcess (lastUni : Option CRow) (priv : Bool) :
    List CRow → Option (List PRow)
  | [] => some []
  | row :: rest =>
      match uniStep lastUni priv row with
      | none => none
      | some (prow, (lu, priv')) =>
          match uniProcess lu priv' rest with
          | none => none
          | some prows => some (prow :: prows)

/-- The row loop of `get_universities` from its initial state
(`last_uni_row = None`, `private = False`). -/
def processRows (rows : List CRow) : Option (List PRow) :=
  uniProcess none false rows

/-- The classified table after the loop, with indicator rows dropped
(the `uni_counts.drop(...)` call in `get_universities`). -/
def get_universities_rows (rows : List CRow) : Option (List PRow) :=
  (processRows rows).map
    (List.filter (fun p => decide (p.type ≠ UniType.indicator)))

/-- Whether a source row is classified `university`. -/
def isUniB (r : CRow) : Bool :=
  decide (get_university_type r = UniType.university)

/-- The nearest `university`-typed row in `pre` scanning backwards, falling
back to `lu` when `pre` holds none: the value of `last_uni_row` after the
loop has consumed `pre` starting from state `lu`. -/
def lastUniFrom (lu : Option CRow) (pre : List CRow) : Option CRow :=
  match (pre.filter isUniB).getLast? with
  | some r => some r
  | none => lu

/-- The name of the nearest preceding `university`-typed row of a prefix. -/
def lastUniName (pre : List CRow) : Option String :=
  (lastUniFrom none pre).map CRow.name

/-! ## The geocoding model

`get_locations` is driven by two oracles: `g` gives the geocoder's answer for
an address (a hit, an empty answer — Python `None` — or a raised exception)
and `dur` the duration in seconds of that request.  The clock is idealised:
only the geocode call and `time.sleep` advance it. -/

/-- A geopy `Location`: the formatted address and the coordinates.
Coordinates are modelled as integers; no arithmetic is done on them. -/
structure Loc where
  address : String
  longitude : Int
  latitude : Int
deriving DecidableEq, Repr

/-- A shapely `Point([lon, lat])`. -/
structure Point where
  x : Int
  y : Int
deriving DecidableEq, Repr

/-- Outcome of one `nominatim.geocode` call. -/
inductive GeoOutcome where
  | hit (l : Loc)
  | nohit
  | error
deriving DecidableEq, Repr

/-- The value stored into `places[addr]` for a non-raising call. -/
def outcomeOpt : GeoOutcome → Option Loc
  | GeoOutcome.hit l => some l
  | _ => none

/-- State of the `get_locations` loop: the `places` dict (an association
list in insertion order), the trace of issued requests with their start
times, and the clock. -/
structure GeoState where
  places : List (String × Option Loc)
  calls : List (String × ℚ)
  clock : ℚ
deriving DecidableEq, Repr

/-- One iteration of the `get_locations` loop for address `addr`:
skip if already in `places`; otherwise issue the request at the current
clock.  A raising call (`GeoOutcome.error`) stores nothing and skips the
sleep; a returning call stores its value and then sleeps `1 - qdiff` when
the request took `qdiff < 1` seconds. -/
def geoStep (g : String → GeoOutcome) (dur : String → ℚ)
    (st : GeoState) (addr : String) : GeoState :=
  if (st.places.lookup addr).isSome then st
  else
    let d := dur addr
    match g addr with
    | GeoOutcome.error =>
        { places := st.places
          calls := st.calls ++ [(addr, st.clock)]
          clock := st.clock + d }
    | out =>
        { places := st.places ++ [(addr, outcomeOpt out)]
          calls := st.calls ++ [(addr, st.clock)]
          clock := st.clock + d + (if d < 1 then 1 - d else 0) }

/-- The whole `get_locations` loop over `addresses`, from the empty dict at
clock 0. -/
def geoRun (g : String → GeoOutcome) (dur : String → ℚ)
    (addresses : List String) : GeoState :=
  addresses.foldl (geoStep g dur) ⟨[], [], 0⟩

/-- `get_locations(addresses, keep_orig_response=True)`: the raw `places`
dict, whose values are `None` for queried-but-unmatched addresses. -/
def get_locations_keep (g : String → GeoOutcome) (dur : String → ℚ)
    (addresses : List String) : List (String × Option Loc) :=
  (geoRun g dur addresses).places

/-- `get_locations(addresses)` with the default `keep_orig_response=False`:
entries whose stored value is `None` are filtered out and the rest become
`Point([longitude, latitude])`. -/
def get_locations (g : String → GeoOutcome) (dur : String → ℚ)
    (addresses : List String) : List (String × Point) :=
  (get_locations_keep g dur addresses).filterMap
    (fun ap => ap.2.map (fun l => (ap.1, Point.mk l.longitude l.latitude)))

/-- Spacing guarantee between a request and its successor, conditional on the
earlier request not having raised. -/
def wellSpaced (g : String → GeoOutcome) (c₁ c₂ : String × ℚ) : Prop :=
  g c₁.1 ≠ GeoOutcome.error → c₁.2 + 1 ≤ c₂.2

instance (g : String → GeoOutcome) : DecidableRel (wellSpaced g) :=
  fun c₁ c₂ =>
    inferInstanceAs (Decidable (g c₁.1 ≠ GeoOutcome.error → c₁.2 + 1 ≤ c₂.2))

/-- Unconditional one-second spacing between two requests, as the spec
states it. -/
def spacedClaim (c₁ c₂ : String × ℚ) : Prop :=
  c₁.2 + 1 ≤ c₂.2

instance : DecidableRel spacedClaim :=
  fun c₁ c₂ => inferInstanceAs (Decidable (c₁.2 + 1 ≤ c₂.2))

/-! ## The geometry merge of `get_universities` (default geocoder branch) -/

/-- The `places` table built in the non-gmaps branch of `get_universities`:
`get_locations(only_names, keep_orig_response=True)` is iterated and every
queried name receives either its point or, when the geocoder answered `None`,
the default country point. -/
def uniPlaces (g : String → GeoOutcome) (dur : String → ℚ)
    (defaultPoint : Point) (only_names : List String) :
    List (String × Point) :=
  (get_locations_keep g dur only_names).map
    (fun np =>
      (np.1,
       match np.2 with
       | none => defaultPoint
       | some l => Point.mk l.longitude l.latitude))

/-- The geometry a row with search name `full_name` ends up with after the
`how='left'` merge of `uni_counts` with `places_gdf` on `full_name`:
`none` models the `NaN` geometry of an unmatched left row. -/
def uniGeometry (g : String → GeoOutcome) (dur : String → ℚ)
    (defaultPoint : Point) (only_names : List String)
    (full_name : String) : Option Point :=
  (uniPlaces g dur defaultPoint only_names).lookup full_name

/-! ## `merge_locations` -/

/-- A school row of the scraped `bigtable`: its composite `address` plus the
rest of the record (abstracted to a name). -/
structure SchoolRow where
  name : String
  address : String
deriving DecidableEq, Repr

/-- `merge_locations`: geocode the distinct addresses with the default
`get_locations` mode and inner-merge the points back on `address`
(`DataFrame.merge` defaults to `how='inner'`, preserving left row order, so
rows whose address is absent from the geocoded mapping disappear). -/
def merge_locations (g : String → GeoOutcome) (dur : String → ℚ)
    (bigtable : List SchoolRow) : List (SchoolRow × Point) :=
  let addresses := (bigtable.map SchoolRow.address).eraseDups
  let geoplaces := get_locations g dur addresses
  bigtable.filterMap (fun r => (geoplaces.lookup r.address).map (fun p => (r, p)))

/-! ## `parse_table_details` -/

/-- A table cell: `none` is pandas `NaN`. -/
abbrev Cell := Option String

/-- A raw table as returned by `pandas.read_html`: a list of rows. -/
abbrev RawTable := List (List Cell)

/-- A dataframe after the header assignment: a header row plus data rows. -/
structure DFTable where
  header : List Cell
  rows : List (List Cell)
deriving DecidableEq, Repr

/-- What `pd.read_html(browser.page_source)` did: raised `ValueError`
(no table found / parse failure) or produced the list of parsed tables. -/
inductive ParseOutcome where
  | failure
  | tables (ts : List RawTable)
deriving DecidableEq, Repr

/-- `parse_table_details`: on `ValueError` return an empty table; otherwise
select table 2 (0-based) when exactly 3 tables parsed, else table 3, drop
all-`NaN` rows, and promote the first remaining row to the header.
`Except.error ()` models the exceptions the `except ValueError` clause does
not catch: the `IndexError` of `raw_tables[tabnum]` when fewer tables are
present, and of `table.iloc[0]` when the selected table has no row left. -/
def parse_table_details (input : ParseOutcome) : Except Unit DFTable :=
  match input with
  | ParseOutcome.failure => Except.ok ⟨[], []⟩
  | ParseOutcome.tables raw =>
      let tabnum := if raw.length == 3 then 2 else 3
      match raw[tabnum]? with
      | none => Except.error ()
      | some t =>
          match t.filter (fun r => !(r.all Option.isNone)) with
          | [] => Except.error ()
          | hd :: rest => Except.ok ⟨hd, rest⟩

/-! ## Concrete fixtures used by witnesses and counterexamples -/

/-- A fixed geocoder hit. -/
def locA : Loc := ⟨"Alfa adresa", 14, 50⟩

/-- A geocoder that always answers with a hit. -/
def oracleHit : String → GeoOutcome := fun _ => GeoOutcome.hit locA

/-- A geocoder that always answers, but never finds anything. -/
def oracleNohit : String → GeoOutcome := fun _ => GeoOutcome.nohit

/-- A geocoder whose every call raises. -/
def oracleErr : String → GeoOutcome := fun _ => GeoOutcome.error

/-- Zero-duration requests. -/
def durZero : String → ℚ := fun _ => 0

/-- Concrete counts rows: a university followed by one of its faculties. -/
def uniRowsW : List CRow :=
  [⟨"11000", "Univerzita Alfa"⟩, ⟨"11100", "Fakulta Beta"⟩]

/-- Concrete counts rows around the `'60000'` boundary row. -/
def privRowsW : List CRow :=
  [⟨"11000", "Univerzita Alfa"⟩, ⟨"60000", "Soukrome skoly"⟩,
   ⟨"61000", "Univerzita Gama"⟩]

/-- A four-table page whose fourth table has a header row and one data row. -/
def rawTablesW : List RawTable :=
  [[[some "t0"]], [[some "t1"]], [[some "t2"]],
   [[some "Id", some "Nazev"], [some "1", some "Skola"]]]

end CzechEdu

namespace CzechEdu

/-! ## Association-list helpers -/

theorem assoc_lookup_append {α β : Type} [BEq α] (a : α)
    (l₁ l₂ : List (α × β)) :
    (l₁ ++ l₂).lookup a =
      match l₁.lookup a with
      | some v => some v
      | none => l₂.lookup a := by
  induction l₁ with
  | nil => simp [List.lookup]
  | cons p rest ih =>
      obtain ⟨k, v⟩ := p
      simp only [List.cons_append, List.lookup]
      cases h : a == k
      · simp [ih]
      · simp

theorem assoc_lookup_isSome_of_mem {α β : Type} [BEq α] [LawfulBEq α]
    {a : α} {b : β} : ∀ {l : List (α × β)}, (a, b) ∈ l →
      (l.lookup a).isSome = true := by
  intro l
  induction l with
  | nil => intro h; simp at h
  | cons p rest ih =>
      obtain ⟨k, v⟩ := p
      intro h
      rcases List.mem_cons.1 h with h1 | h2
      · cases h1
        simp [List.lookup]
      · simp only [List.lookup]
        cases hk : a == k
        · exact ih h2
        · simp

theorem assoc_not_mem_of_lookup_eq_none {α β : Type} [BEq α] [LawfulBEq α]
    {a : α} {l : List (α × β)} (h : l.lookup a = none) :
    a ∉ l.map Prod.fst := by
  intro hmem
  rcases List.mem_map.1 hmem with ⟨⟨k, v⟩, hkv, hfst⟩
  cases hfst
  have := assoc_lookup_isSome_of_mem hkv
  rw [h] at this
  simp at this

theorem assoc_mem_of_lookup_eq_some {α β : Type} [BEq α] [LawfulBEq α]
    {a : α} {b : β} : ∀ {l : List (α × β)}, l.lookup a = some b →
      (a, b) ∈ l := by
  intro l
  induction l with
  | nil => intro h; simp [List.lookup] at h
  | cons p rest ih =>
      obtain ⟨k, v⟩ := p
      simp only [List.lookup]
      cases hk : a == k
      · intro h
        exact List.mem_cons_of_mem _ (ih h)
      · intro h
        have hak : a = k := by
          exact eq_of_beq hk
        cases h
        cases hak
        exact List.mem_cons_self _ _

theorem assoc_lookup_eq_some_of_mem_nodup {α β : Type} [BEq α] [LawfulBEq α]
    {a : α} {b : β} : ∀ {l : List (α × β)},
      (l.map Prod.fst).Nodup → (a, b) ∈ l → l.lookup a = some b := by
  intro l
  induction l with
  | nil => intro _ h; simp at h
  | cons p rest ih =>
      obtain ⟨k, v⟩ := p
      intro hnd h
      simp only [List.map_cons, List.nodup_cons] at hnd
      rcases List.mem_cons.1 h with h1 | h2
      · cases h1
        simp [List.lookup]
      · simp only [List.lookup]
        cases hk : a == k
        · exact ih hnd.2 h2
        · have hak : a = k := eq_of_beq hk
          subst hak
          exact absurd (List.mem_map.2 ⟨(a, b), h2, rfl⟩) hnd.1

/-! ## `geoRun` structure lemmas -/

/-- The value `places` ends up holding for key `a`: an address already keyed
keeps its value; otherwise a first occurrence in `addrs` whose lookup does
not raise stores the geocoder's answer, and raising lookups store nothing. -/
theorem geoFold_places_lookup (g : String → GeoOutcome) (dur : String → ℚ) :
    ∀ (addrs : List String) (st : GeoState) (a : String),
      ((addrs.foldl (geoStep g dur) st).places.lookup a) =
        match st.places.lookup a with
        | some v => some v
        | none =>
            if a ∈ addrs ∧ g a ≠ GeoOutcome.error then
              some (outcomeOpt (g a))
            else none := by
  intro addrs
  induction addrs with
  | nil =>
      intro st a
      cases h : st.places.lookup a <;> simp [h]
  | cons x rest ih =>
      intro st a
      rw [List.foldl_cons, ih]
      by_cases hx : (st.places.lookup x).isSome
      · have hstep : geoStep g dur st x = st := by
          simp [geoStep, hx]
        rw [hstep]
        cases ha : st.places.lookup a
        · have hax : a ≠ x := by
            intro he
            subst he
            rw [ha] at hx
            simp at hx
          simp [List.mem_cons, hax]
        · rfl
      · have hxn : st.places.lookup x = none := by
          cases h : st.places.lookup x
          · rfl
          · rw [h] at hx; simp at hx
        cases hgx : g x with
        | error =>
            have hstep : geoStep g dur st x =
                { places := st.places
                  calls := st.calls ++ [(x, st.clock)]
                  clock := st.clock + dur x } := by
              simp [geoStep, hxn, hgx]
            rw [hstep]
            cases ha : st.places.lookup a
            · by_cases hax : a = x
              · subst hax
                have : ¬(g a ≠ GeoOutcome.error) := by simp [hgx]
                simp [this]
              · simp [List.mem_cons, hax]
            · rfl
        | nohit =>
            have hstep : geoStep g dur st x =
                { places := st.places ++ [(x, outcomeOpt GeoOutcome.nohit)]
                  calls := st.calls ++ [(x, st.clock)]
                  clock := st.clock + dur x +
                    (if dur x < 1 then 1 - dur x else 0) } := by
              simp [geoStep, hxn, hgx]
            rw [hstep]
            simp only [assoc_lookup_append]
            cases ha : st.places.lookup a
            · by_cases hax : a = x
              · subst hax
                simp [List.lookup, hgx]
              · have hbax : (a == x) = false := by simp [hax]
                simp [List.lookup, hbax, List.mem_cons, hax]
            · rfl
        | hit l =>
            have hstep : geoStep g dur st x =
                { places := st.places ++ [(x, outcomeOpt (GeoOutcome.hit l))]
                  calls := st.calls ++ [(x, st.clock)]
                  clock := st.clock + dur x +
                    (if dur x < 1 then 1 - dur x else 0) } := by
              simp [geoStep, hxn, hgx]
            rw [hstep]
            simp only [assoc_lookup_append]
            cases ha : st.places.lookup a
            · by_cases hax : a = x
              · subst hax
                simp [List.lookup, hgx]
              · have hbax : (a == x) = false := by simp [hax]
                simp [List.lookup, hbax, List.mem_cons, hax]
            · rfl

/-- The keys of the `places` dict stay duplicate-free: an address is only
inserted when it is not present yet. -/
theorem geoFold_places_keys_nodup (g : String → GeoOutcome)
    (dur : String → ℚ) :
    ∀ (addrs : List String) (st : GeoState),
      (st.places.map Prod.fst).Nodup →
      (((addrs.foldl (geoStep g dur) st).places.map Prod.fst)).Nodup := by
  intro addrs
  induction addrs with
  | nil => intro st h; exact h
  | cons x rest ih =>
      intro st h
      rw [List.foldl_cons]
      apply ih
      by_cases hx : (st.places.lookup x).isSome
      · simp [geoStep, hx, h]
      · have hxn : st.places.lookup x = none := by
          cases hl : st.places.lookup x
          · rfl
          · rw [hl] at hx; simp at hx
        have hnotmem : x ∉ st.places.map Prod.fst :=
          assoc_not_mem_of_lookup_eq_none hxn
        cases hgx : g x with
        | error => simp [geoStep, hxn, hgx, h]
        | nohit =>
            simp only [geoStep, hxn, hgx, Option.isSome_none,
              Bool.false_eq_true, if_false]
            simp [List.nodup_append, h, hnotmem]
        | hit l =>
            simp only [geoStep, hxn, hgx, Option.isSome_none,
              Bool.false_eq_true, if_false]
            simp [List.nodup_append, h, hnotmem]

/-- One loop iteration either issues no request (address already resolved)
or appends exactly one request for the current address. -/
theorem geoStep_calls (g : String → GeoOutcome) (dur : String → ℚ)
    (st : GeoState) (x : String) :
    (geoStep g dur st x).calls = st.calls ∨
      (geoStep g dur st x).calls = st.calls ++ [(x, st.clock)] := by
  by_cases hx : (st.places.lookup x).isSome
  · left; simp [geoStep, hx]
  · right
    cases hgx : g x <;> simp [geoStep, hx, hgx]

/-- The request trace grows by a sublist of the addresses processed: every
issued request is for one of the processed addresses, in input order, and
each processed address contributes at most one request. -/
theorem geoFold_calls_sublist (g : String → GeoOutcome) (dur : String → ℚ) :
    ∀ (addrs : List String) (st : GeoState), ∃ post : List (String × ℚ),
      (addrs.foldl (geoStep g dur) st).calls = st.calls ++ post ∧
      List.Sublist (post.map Prod.fst) addrs := by
  intro addrs
  induction addrs with
  | nil => intro st; exact ⟨[], by simp, by simp⟩
  | cons x rest ih =>
      intro st
      rw [List.foldl_cons]
      rcases ih (geoStep g dur st x) with ⟨post, hcalls, hsub⟩
      rcases geoStep_calls g dur st x with hst | hst
      · exact ⟨post, by rw [hcalls, hst], hsub.cons x⟩
      · refine ⟨(x, st.clock) :: post, ?_, ?_⟩
        · rw [hcalls, hst]
          simp
        · simpa using hsub.cons₂ x

/-- One loop iteration preserves the spacing invariant: the trace satisfies
`wellSpaced` pairwise-adjacently, and the clock has advanced at least one
second past the start of the last request unless that request raised. -/
theorem geoStep_spacing (g : String → GeoOutcome) (dur : String → ℚ)
    (hdur : ∀ a, 0 ≤ dur a) (st : GeoState) (x : String)
    (h1 : List.Chain' (wellSpaced g) st.calls)
    (h2 : ∀ c, st.calls.getLast? = some c →
      c.2 + (if g c.1 = GeoOutcome.error then 0 else 1) ≤ st.clock) :
    List.Chain' (wellSpaced g) (geoStep g dur st x).calls ∧
      (∀ c, (geoStep g dur st x).calls.getLast? = some c →
        c.2 + (if g c.1 = GeoOutcome.error then 0 else 1) ≤
          (geoStep g dur st x).clock) := by
  have hadj : ∀ c, st.calls.getLast? = some c → wellSpaced g c (x, st.clock) := by
    intro c hc hce
    have := h2 c hc
    rw [if_neg hce] at this
    exact this
  have hchain : List.Chain' (wellSpaced g) (st.calls ++ [(x, st.clock)]) := by
    refine List.chain'_append.2 ⟨h1, List.chain'_singleton _, ?_⟩
    intro c hc y hy
    simp only [List.head?_cons, Option.mem_def, Option.some.injEq] at hy
    subst hy
    exact hadj c hc
  by_cases hx : (st.places.lookup x).isSome
  · constructor
    · simpa [geoStep, hx] using h1
    · intro c hc
      simp only [geoStep, hx, if_true] at hc ⊢
      exact h2 c hc
  · cases hgx : g x with
    | error =>
        constructor
        · simpa [geoStep, hx, hgx] using hchain
        · intro c hc
          simp only [geoStep, hx, hgx] at hc ⊢
          simp only [Bool.false_eq_true, if_false] at hc ⊢
          simp only [List.getLast?_concat, Option.some.injEq] at hc
          subst hc
          simp [hgx]
          have := hdur x
          linarith
    | nohit =>
        constructor
        · simpa [geoStep, hx, hgx] using hchain
        · intro c hc
          simp only [geoStep, hx, hgx] at hc ⊢
          simp only [Bool.false_eq_true, if_false] at hc ⊢
          simp only [List.getLast?_concat, Option.some.injEq] at hc
          subst hc
          have := hdur x
          by_cases hd : dur x < 1
          · simp [hgx, hd]
            try linarith
          · simp [hgx, hd]
            push_neg at hd
            try linarith
    | hit l =>
        constructor
        · simpa [geoStep, hx, hgx] using hchain
        · intro c hc
          simp only [geoStep, hx, hgx] at hc ⊢
          simp only [Bool.false_eq_true, if_false] at hc ⊢
          simp only [List.getLast?_concat, Option.some.injEq] at hc
          subst hc
          have := hdur x
          by_cases hd : dur x < 1
          · simp [hgx, hd]
            try linarith
          · simp [hgx, hd]
            push_neg at hd
            try linarith

/-- The whole loop preserves the spacing invariant. -/
theorem geoFold_spacing (g : String → GeoOutcome) (dur : String → ℚ)
    (hdur : ∀ a, 0 ≤ dur a) :
    ∀ (addrs : List String) (st : GeoState),
      List.Chain' (wellSpaced g) st.calls →
      (∀ c, st.calls.getLast? = some c →
        c.2 + (if g c.1 = GeoOutcome.error then 0 else 1) ≤ st.clock) →
      List.Chain' (wellSpaced g) ((addrs.foldl (geoStep g dur) st).calls) := by
  intro addrs
  induction addrs with
  | nil => intro st h1 _; exact h1
  | cons x rest ih =>
      intro st h1 h2
      rw [List.foldl_cons]
      rcases geoStep_spacing g dur hdur st x h1 h2 with ⟨h1', h2'⟩
      exact ih _ h1' h2'

/-! ## `uniProcess` structure lemmas -/

theorem getLast?_cons_eq {α : Type} (a : α) (l : List α) :
    (a :: l).getLast? =
      match l.getLast? with
      | some v => some v
      | none => some a := by
  cases l with
  | nil => simp
  | cons b m =>
      rw [List.getLast?_cons_cons]
      cases h : (b :: m).getLast? with
      | some v => rfl
      | none =>
          exfalso
          rw [List.getLast?_eq_none_iff] at h
          cases h

/-- Consuming one row from the front updates the `last_uni_row` abstraction
the same way the loop updates its state. -/
theorem lastUniFrom_cons (lu : Option CRow) (r : CRow) (pre : List CRow) :
    lastUniFrom lu (r :: pre) =
      lastUniFrom (if isUniB r then some r else lu) pre := by
  by_cases hu : isUniB r
  · simp only [lastUniFrom, List.filter_cons, hu, if_pos]
    rw [getLast?_cons_eq]
    cases h : (pre.filter isUniB).getLast? <;> simp [h]
  · simp only [lastUniFrom, List.filter_cons]
    rw [if_neg hu]
    simp [hu]

theorem uniProcess_cons (lu : Option CRow) (priv : Bool) (row : CRow)
    (rest : List CRow) :
    uniProcess lu priv (row :: rest) =
      match uniStep lu priv row with
      | none => none
      | some (prow, (lu2, priv2)) =>
          match uniProcess lu2 priv2 rest with
          | none => none
          | some prows => some (prow :: prows) := rfl

/-- The state returned by a successful `uniStep`: `last_uni_row` becomes the
current row exactly on `university` rows, and the `private` flag absorbs the
`'60000'` test. -/
theorem uniStep_state (lu : Option CRow) (priv : Bool) (row : CRow)
    (pr : PRow) (st2 : Option CRow × Bool)
    (h : uniStep lu priv row = some (pr, st2)) :
    st2 = (if isUniB row then some row else lu,
           priv || (row.code == "60000")) := by
  cases hgt : get_university_type row <;> cases lu <;>
    simp only [uniStep, hgt, Option.some.injEq, Prod.mk.injEq,
      reduceCtorEq] at h <;>
    (obtain ⟨h1, h2⟩ := h; subst h2; simp [isUniB, hgt])

/-- The `university` column a successful `uniStep` writes for a faculty/other
row is the name stored in `last_uni_row`. -/
theorem uniStep_university (lu : Option CRow) (priv : Bool) (row : CRow)
    (pr : PRow) (st2 : Option CRow × Bool)
    (h : uniStep lu priv row = some (pr, st2))
    (ht : get_university_type row = UniType.faculty ∨
      get_university_type row = UniType.other) :
    pr.university = lu.map CRow.name := by
  rcases ht with ht | ht <;> cases lu <;>
    simp only [uniStep, ht, Option.some.injEq, Prod.mk.injEq,
      reduceCtorEq] at h <;>
    (obtain ⟨h1, h2⟩ := h; subst h1; simp)

/-- The `private` column a successful `uniStep` writes. -/
theorem uniStep_priv (lu : Option CRow) (priv : Bool) (row : CRow)
    (pr : PRow) (st2 : Option CRow × Bool)
    (h : uniStep lu priv row = some (pr, st2)) :
    pr.privateFlag = if (priv || (row.code == "60000")) = true then 1 else 0 := by
  cases hgt : get_university_type row <;> cases lu <;>
    simp only [uniStep, hgt, Option.some.injEq, Prod.mk.injEq,
      reduceCtorEq] at h <;>
    (obtain ⟨h1, h2⟩ := h; subst h1; simp)

theorem uniProcess_length :
    ∀ (rows : List CRow) (lu : Option CRow) (priv : Bool) (out : List PRow),
      uniProcess lu priv rows = some out → out.length = rows.length := by
  intro rows
  induction rows with
  | nil =>
      intro lu priv out h
      simp only [uniProcess, Option.some.injEq] at h
      subst h
      rfl
  | cons row rest ih =>
      intro lu priv out h
      rw [uniProcess_cons] at h
      cases hstep : uniStep lu priv row with
      | none => simp only [hstep] at h; cases h
      | some v =>
          obtain ⟨prow, lu2, priv2⟩ := v
          simp only [hstep] at h
          cases hrec : uniProcess lu2 priv2 rest with
          | none => simp only [hrec] at h; cases h
          | some prows =>
              simp only [hrec, Option.some.injEq] at h
              subst h
              simp [ih lu2 priv2 prows hrec]

/-- The `university` column any successful run writes for a faculty/other
row at position `i` is the name of the nearest preceding `university` row,
falling back to the initial `last_uni_row` when the prefix has none. -/
theorem uniProcess_university_field :
    ∀ (rows : List CRow) (lu : Option CRow) (priv : Bool) (out : List PRow),
      uniProcess lu priv rows = some out →
      ∀ (i : Nat) (r : CRow) (pr : PRow),
        rows[i]? = some r → out[i]? = some pr →
        (get_university_type r = UniType.faculty ∨
         get_university_type r = UniType.other) →
        pr.university = (lastUniFrom lu (rows.take i)).map CRow.name := by
  intro rows
  induction rows with
  | nil =>
      intro lu priv out h i r pr hr
      simp at hr
  | cons row rest ih =>
      intro lu priv out h i r pr hr hpr ht
      rw [uniProcess_cons] at h
      cases hstep : uniStep lu priv row with
      | none => simp only [hstep] at h; cases h
      | some v =>
          obtain ⟨prow, lu2, priv2⟩ := v
          simp only [hstep] at h
          cases hrec : uniProcess lu2 priv2 rest with
          | none => simp only [hrec] at h; cases h
          | some prows =>
              simp only [hrec, Option.some.injEq] at h
              subst h
              have hstate := uniStep_state lu priv row prow (lu2, priv2) hstep
              cases i with
              | zero =>
                  simp only [List.getElem?_cons_zero, Option.some.injEq]
                    at hr hpr
                  subst hr
                  subst hpr
                  rw [List.take_zero]
                  have hbase : lastUniFrom lu [] = lu := rfl
                  rw [hbase]
                  exact uniStep_university lu priv row prow (lu2, priv2)
                    hstep ht
              | succ n =>
                  simp only [List.getElem?_cons_succ] at hr hpr
                  rw [List.take_succ_cons, lastUniFrom_cons]
                  have hlu2 : lu2 = (if isUniB row then some row else lu) := by
                    have := congrArg Prod.fst hstate
                    simpa using this
                  rw [← hlu2]
                  exact ih lu2 priv2 prows hrec n r pr hr hpr ht

/-- The `private` column any successful run writes at position `i`:
1 exactly when the flag started true or some row of the prefix up to and
including position `i` carries code `'60000'`. -/
theorem uniProcess_priv_field :
    ∀ (rows : List CRow) (lu : Option CRow) (priv : Bool) (out : List PRow),
      uniProcess lu priv rows = some out →
      ∀ (i : Nat) (pr : PRow), out[i]? = some pr →
        pr.privateFlag =
          if (priv || (rows.take (i + 1)).any
              (fun q => q.code == "60000")) = true
          then 1 else 0 := by
  intro rows
  induction rows with
  | nil =>
      intro lu priv out h i pr hpr
      simp only [uniProcess, Option.some.injEq] at h
      subst h
      simp at hpr
  | cons row rest ih =>
      intro lu priv out h i pr hpr
      rw [uniProcess_cons] at h
      cases hstep : uniStep lu priv row with
      | none => simp only [hstep] at h; cases h
      | some v =>
          obtain ⟨prow, lu2, priv2⟩ := v
          simp only [hstep] at h
          cases hrec : uniProcess lu2 priv2 rest with
          | none => simp only [hrec] at h; cases h
          | some prows =>
              simp only [hrec, Option.some.injEq] at h
              subst h
              have hstate := uniStep_state lu priv row prow (lu2, priv2) hstep
              cases i with
              | zero =>
                  simp only [List.getElem?_cons_zero, Option.some.injEq]
                    at hpr
                  subst hpr
                  rw [uniStep_priv lu priv row prow (lu2, priv2) hstep]
                  simp [List.take_succ_cons]
              | succ n =>
                  simp only [List.getElem?_cons_succ] at hpr
                  have hpriv2 : priv2 = (priv || (row.code == "60000")) := by
                    have := congrArg Prod.snd hstate
                    simpa using this
                  rw [ih lu2 priv2 prows hrec n pr hpr, hpriv2]
                  simp [List.take_succ_cons, Bool.or_assoc]

/-! ## Claim theorems -/

/-- C1 (amended): after a completed `get_universities` row loop, every
faculty/other row that is preceded by at least one `university`-typed row
has a non-null `university` equal to the name of the nearest preceding
`university`-typed row (in original sheet order).  As literally stated the
claim fails: a faculty row with no preceding university row keeps a null
`university` even though processing finishes, see the counterexample. -/
theorem C1_university_link (rows : List CRow) (i : Nat) (r : CRow)
    (u : String)
    (hs : (processRows rows).isSome = true)
    (hr : rows[i]? = some r)
    (ht : get_university_type r = UniType.faculty ∨
      get_university_type r = UniType.other)
    (hu : lastUniName (rows.take i) = some u) :
    ((processRows rows).bind (fun out => out[i]?)).map PRow.university =
      some (some u) := by
  obtain ⟨out, hout⟩ := Option.isSome_iff_exists.1 hs
  have hlen := uniProcess_length rows none false out hout
  have hi : i < rows.length := (List.getElem?_eq_some_iff.1 hr).1
  have hio : i < out.length := by rw [hlen]; exact hi
  have hpr : out[i]? = some out[i] := List.getElem?_eq_getElem hio
  rw [hout]
  show (out[i]?).map PRow.university = some (some u)
  rw [hpr]
  have hfield := uniProcess_university_field rows none false out hout i r
    out[i] hr hpr ht
  rw [lastUniName] at hu
  simp [hfield, hu]

/-- C1 witness: a university row followed by a faculty row; the faculty row
links to the university's name. -/
theorem C1_university_link_witness :
    ((processRows uniRowsW).bind (fun out => out[1]?)).map PRow.university =
      some (some "Univerzita Alfa") :=
  C1_university_link uniRowsW 1 ⟨"11100", "Fakulta Beta"⟩ "Univerzita Alfa"
    (by decide) (by decide) (Or.inl (by decide)) (by decide)

/-- C1 counterexample: a counts table whose first row is a faculty row,
followed by a university row.  The loop finishes (the result is `some`),
the first row's derived type is `faculty`, yet its `university` column is
null — so it is not true that after processing every faculty/other row has a
non-null `university` naming a preceding university row. -/
theorem C1_counterexample :
    (processRows [⟨"12345", "Fakulta prvni"⟩, ⟨"11000", "Univerzita Alfa"⟩]).map
        (List.map PRow.university) =
        some [none, some "Univerzita Alfa"] ∧
      (processRows
          [⟨"12345", "Fakulta prvni"⟩, ⟨"11000", "Univerzita Alfa"⟩]).map
        (List.map PRow.type) =
        some [UniType.faculty, UniType.university] := by
  decide

/-- C2: `get_university_type` always yields one of the four types, and the
result is characterised exactly by the documented case analysis of the
row's code and (lowercased) name. -/
theorem C2_classification (r : CRow) :
    (get_university_type r = UniType.indicator ∨
     get_university_type r = UniType.university ∨
     get_university_type r = UniType.faculty ∨
     get_university_type r = UniType.other) ∧
    (get_university_type r = UniType.indicator ↔
      (strEndsWith r.code "000" = true ∧
        (r.code = "60000" ∨ r.code = "00000" ∨ r.code = "10000"))) ∧
    (get_university_type r = UniType.university ↔
      (strEndsWith r.code "000" = true ∧
        ¬(r.code = "60000" ∨ r.code = "00000" ∨ r.code = "10000"))) ∧
    (get_university_type r = UniType.faculty ↔
      (strEndsWith r.code "000" = false ∧
        (strContains (strToLower r.name) "fakulta" = true ∨
         strContains (strToLower r.name) "falulta" = true))) ∧
    (get_university_type r = UniType.other ↔
      (strEndsWith r.code "000" = false ∧
        strContains (strToLower r.name) "fakulta" = false ∧
        strContains (strToLower r.name) "falulta" = false)) := by
  rcases Bool.eq_false_or_eq_true (strEndsWith r.code "000") with he | he
  · by_cases hres : r.code = "60000" ∨ r.code = "00000" ∨ r.code = "10000"
    · simp [get_university_type, he, hres]
    · simp [get_university_type, he, hres]
  · rcases Bool.eq_false_or_eq_true
        (strContains (strToLower r.name) "fakulta") with hf | hf <;>
      rcases Bool.eq_false_or_eq_true
        (strContains (strToLower r.name) "falulta") with hf2 | hf2 <;>
      simp [get_university_type, he, hf, hf2]

/-- C3: `get_chunks` on `[1..10]` with `n = 3`: the raw result (each chunk
wrapped in a singleton list for `starmap`), the chunk sizes `[4, 3, 3]`, the
fact that each chunk is the corresponding contiguous slice of the input, and
that concatenating the chunks in order rebuilds the input exactly. -/
theorem C3_chunks :
    get_chunks [1, 2, 3, 4, 5, 6, 7, 8, 9, 10] 3 =
        [[[1, 2, 3, 4]], [[5, 6, 7]], [[8, 9, 10]]] ∧
      ((get_chunks [1, 2, 3, 4, 5, 6, 7, 8, 9, 10] 3).map
          (fun c => c.flatten)).map List.length = [4, 3, 3] ∧
      (get_chunks [1, 2, 3, 4, 5, 6, 7, 8, 9, 10] 3).map (fun c => c.flatten) =
        [pySlice [1, 2, 3, 4, 5, 6, 7, 8, 9, 10] 0 4,
         pySlice [1, 2, 3, 4, 5, 6, 7, 8, 9, 10] 4 7,
         pySlice [1, 2, 3, 4, 5, 6, 7, 8, 9, 10] 7 10] ∧
      ((get_chunks [1, 2, 3, 4, 5, 6, 7, 8, 9, 10] 3).map
          (fun c => c.flatten)).flatten = [1, 2, 3, 4, 5, 6, 7, 8, 9, 10] := by
  decide

/-- C6: across the row iteration of a completed `get_universities` loop the
`private` flag of the row at position `i` is 1 exactly when some row at a
position `≤ i` carries the boundary code `'60000'`: it is 0 before the
boundary row, 1 at it, 1 ever after, and never resets. -/
theorem C6_private_flag (rows : List CRow) (i : Nat)
    (hs : (processRows rows).isSome = true) (hi : i < rows.length) :
    ((processRows rows).bind (fun out => out[i]?)).map PRow.privateFlag =
      some (if (rows.take (i + 1)).any (fun q => q.code == "60000") then 1
            else 0) := by
  obtain ⟨out, hout⟩ := Option.isSome_iff_exists.1 hs
  have hlen := uniProcess_length rows none false out hout
  have hio : i < out.length := by rw [hlen]; exact hi
  have hpr : out[i]? = some out[i] := List.getElem?_eq_getElem hio
  rw [hout]
  show (out[i]?).map PRow.privateFlag = _
  rw [hpr]
  have hfield := uniProcess_priv_field rows none false out hout i out[i] hpr
  simp only [Bool.false_or] at hfield
  simp [hfield]

/-- C6 witness: flag 0 on the row before the `'60000'` boundary row, 1 at the
boundary row, and still 1 on the following row. -/
theorem C6_private_flag_witness :
    ((processRows privRowsW).bind (fun out => out[0]?)).map PRow.privateFlag =
        some 0 ∧
      ((processRows privRowsW).bind (fun out => out[1]?)).map
        PRow.privateFlag = some 1 ∧
      ((processRows privRowsW).bind (fun out => out[2]?)).map
        PRow.privateFlag = some 1 :=
  ⟨(C6_private_flag privRowsW 0 (by decide) (by decide)).trans (by decide),
   (C6_private_flag privRowsW 1 (by decide) (by decide)).trans (by decide),
   (C6_private_flag privRowsW 2 (by decide) (by decide)).trans (by decide)⟩

theorem assoc_lookup_map {α β γ : Type} [BEq α] (f : β → γ) (a : α) :
    ∀ l : List (α × β),
      (l.map (fun kv => (kv.1, f kv.2))).lookup a = (l.lookup a).map f := by
  intro l
  induction l with
  | nil => simp [List.lookup]
  | cons p rest ih =>
      obtain ⟨k, v⟩ := p
      simp only [List.map_cons, List.lookup]
      cases h : a == k
      · simp [ih]
      · simp

/-- Characterisation of default-mode `get_locations` membership: a pair is in
the result exactly for input addresses whose lookup produced a hit, and the
point is built from that hit's coordinates. -/
theorem get_locations_mem (g : String → GeoOutcome) (dur : String → ℚ)
    (addrs : List String) (a : String) (p : Point)
    (hm : (a, p) ∈ get_locations g dur addrs) :
    a ∈ addrs ∧ ∃ l, g a = GeoOutcome.hit l ∧
      p = Point.mk l.longitude l.latitude := by
  obtain ⟨⟨a0, op⟩, hmem, hf⟩ := List.mem_filterMap.1 hm
  rw [Option.map_eq_some'] at hf
  obtain ⟨l, hop, hfl⟩ := hf
  injection hfl with h1 h2
  subst h1
  subst h2
  subst hop
  have hnd0 : ((geoRun g dur addrs).places.map Prod.fst).Nodup :=
    geoFold_places_keys_nodup g dur addrs ⟨[], [], 0⟩ (by simp)
  have hlook := assoc_lookup_eq_some_of_mem_nodup hnd0 hmem
  have hchar0 := geoFold_places_lookup g dur addrs ⟨[], [], 0⟩ a0
  simp only [List.lookup] at hchar0
  have hchar : (get_locations_keep g dur addrs).lookup a0 =
      (if a0 ∈ addrs ∧ g a0 ≠ GeoOutcome.error then
        some (outcomeOpt (g a0)) else none) := hchar0
  have hlook2 : (get_locations_keep g dur addrs).lookup a0 = some (some l) :=
    hlook
  rw [hlook2] at hchar
  by_cases hcond : a0 ∈ addrs ∧ g a0 ≠ GeoOutcome.error
  · rw [if_pos hcond] at hchar
    injection hchar with hout
    cases hga : g a0 with
    | hit l2 =>
        rw [hga] at hout
        simp only [outcomeOpt, Option.some.injEq] at hout
        subst hout
        exact ⟨hcond.1, l, rfl, rfl⟩
    | nohit =>
        rw [hga] at hout
        simp [outcomeOpt] at hout
    | error => exact absurd hga hcond.2
  · rw [if_neg hcond] at hchar
    cases hchar

/-- The `keep_orig_response=True` lookup value for an address in the input:
the geocoder's stored answer unless the lookup raised. -/
theorem get_locations_keep_lookup (g : String → GeoOutcome) (dur : String → ℚ)
    (addrs : List String) (a : String) (ha : a ∈ addrs)
    (hne : g a ≠ GeoOutcome.error) :
    (get_locations_keep g dur addrs).lookup a = some (outcomeOpt (g a)) := by
  have hchar := geoFold_places_lookup g dur addrs ⟨[], [], 0⟩ a
  simp only [List.lookup] at hchar
  rw [if_pos ⟨ha, hne⟩] at hchar
  exact hchar

/-- C4 (amended): for every duplicate-free input list, the default-mode
result maps a subset of the input keys, every present value is a point built
from an actual geocoder hit, keys whose lookup raised or found nothing are
entirely absent, and no address is queried twice.  As literally stated (for
every input list) the claim fails: a duplicated address whose lookup raised
is retried, see the counterexample. -/
theorem C4_locations_contract (g : String → GeoOutcome) (dur : String → ℚ)
    (addrs : List String) (hnd : addrs.Nodup) :
    (∀ a p, (a, p) ∈ get_locations g dur addrs →
      a ∈ addrs ∧ ∃ l, g a = GeoOutcome.hit l ∧
        p = Point.mk l.longitude l.latitude) ∧
    (∀ a, (g a = GeoOutcome.nohit ∨ g a = GeoOutcome.error) →
      ∀ p, (a, p) ∉ get_locations g dur addrs) ∧
    ((geoRun g dur addrs).calls.map Prod.fst).Nodup := by
  refine ⟨fun a p hm => get_locations_mem g dur addrs a p hm, ?_, ?_⟩
  · intro a hfail p hm
    obtain ⟨_, l, hl, _⟩ := get_locations_mem g dur addrs a p hm
    rcases hfail with hf | hf <;> rw [hf] at hl <;> cases hl
  · obtain ⟨post, hcalls, hsub⟩ := geoFold_calls_sublist g dur addrs ⟨[], [], 0⟩
    have : (geoRun g dur addrs).calls = post := by
      rw [geoRun, hcalls]
      simp
    rw [this]
    exact hsub.nodup hnd

/-- C4 witness: a no-hit address from a singleton input is absent from the
default-mode result. -/
theorem C4_locations_contract_witness :
    ("a", Point.mk 14 50) ∉ get_locations oracleNohit durZero ["a"] :=
  (C4_locations_contract oracleNohit durZero ["a"] (by decide)).2.1 "a"
    (Or.inl rfl) (Point.mk 14 50)

/-- C4 counterexample: with input `["a", "a"]` and a geocoder whose lookups
raise, the failed address is retried — the request trace queries `"a"`
twice, contradicting "no retry attempted". -/
theorem C4_counterexample :
    ((geoRun oracleErr durZero ["a", "a"]).calls.map Prod.fst = ["a", "a"]) ∧
      ¬ ((geoRun oracleErr durZero ["a", "a"]).calls.map Prod.fst).Nodup := by
  constructor
  · decide
  · decide

/-- C5 (amended): with nonnegative request durations, any two consecutive
issued requests where the earlier one did not raise start at least one
second apart.  As literally stated (for every consecutive pair) the claim
fails because the exception path skips the sleep, see the
counterexample. -/
theorem C5_request_spacing (g : String → GeoOutcome) (dur : String → ℚ)
    (addrs : List String) (hdur : ∀ a, 0 ≤ dur a) :
    List.Chain' (wellSpaced g) ((geoRun g dur addrs).calls) := by
  refine geoFold_spacing g dur hdur addrs ⟨[], [], 0⟩ (by simp) ?_
  intro c hc
  simp at hc

/-- C5 witness: two successful zero-duration lookups; the sleep stretches
the gap to exactly one second. -/
theorem C5_request_spacing_witness :
    List.Chain' (wellSpaced oracleHit)
      ((geoRun oracleHit durZero ["a", "b"]).calls) :=
  C5_request_spacing oracleHit durZero ["a", "b"] (fun _ => le_refl 0)

/-- C5 counterexample: two addresses whose lookups raise with zero duration.
Both requests are issued at clock 0, so consecutive requests are not one
second apart — the exception path skips the sleep. -/
theorem C5_counterexample :
    (geoRun oracleErr durZero ["a", "b"]).calls = [("a", 0), ("b", 0)] ∧
      ¬ List.Chain' spacedClaim (geoRun oracleErr durZero ["a", "b"]).calls := by
  have hcalls : (geoRun oracleErr durZero ["a", "b"]).calls =
      [("a", 0), ("b", 0)] := by
    norm_num +decide [geoRun, geoStep, oracleErr, durZero, List.foldl,
      List.lookup]
  refine ⟨hcalls, ?_⟩
  rw [hcalls]
  intro hch
  have hpair := (List.chain'_cons.1 hch).1
  simp only [spacedClaim] at hpair
  norm_num at hpair

/-- C10: an address the geocoder answered but found nothing for is mapped to
`None` in the `keep_orig_response=True` result, and is entirely absent from
the default-mode result — callers of the `True` mode must handle `None`
values. -/
theorem C10_keep_orig_none (g : String → GeoOutcome) (dur : String → ℚ)
    (addrs : List String) (a : String)
    (ha : a ∈ addrs) (hg : g a = GeoOutcome.nohit) :
    (a, (none : Option Loc)) ∈ get_locations_keep g dur addrs ∧
      ∀ p, (a, p) ∉ get_locations g dur addrs := by
  constructor
  · have hlook := get_locations_keep_lookup g dur addrs a ha
      (by rw [hg]; intro h; cases h)
    rw [hg] at hlook
    exact assoc_mem_of_lookup_eq_some hlook
  · intro p hm
    obtain ⟨_, l, hl, _⟩ := get_locations_mem g dur addrs a p hm
    rw [hg] at hl
    cases hl

/-- C10 witness at a singleton no-hit input. -/
theorem C10_keep_orig_none_witness :
    ("a", (none : Option Loc)) ∈
        get_locations_keep oracleNohit durZero ["a"] ∧
      ("a", Point.mk 14 50) ∉ get_locations oracleNohit durZero ["a"] :=
  ⟨(C10_keep_orig_none oracleNohit durZero ["a"] "a" (by decide) rfl).1,
   (C10_keep_orig_none oracleNohit durZero ["a"] "a" (by decide) rfl).2
     (Point.mk 14 50)⟩

/-- C8 (amended): with the default geocoder, a university row whose search
name was queried and answered with no hit gets the default country point in
the merged table; but a row whose lookup raised is missing from the places
table and the left merge leaves its geometry null.  As literally stated
(every unresolved name gets the default point) the claim fails, see the
counterexample. -/
theorem C8_default_point (g : String → GeoOutcome) (dur : String → ℚ)
    (dp : Point) (names : List String) (s : String) (hs : s ∈ names) :
    (g s = GeoOutcome.nohit → uniGeometry g dur dp names s = some dp) ∧
      (g s = GeoOutcome.error → uniGeometry g dur dp names s = none) := by
  have hmap := assoc_lookup_map
    (fun op =>
      match op with
      | none => dp
      | some l => Point.mk l.longitude l.latitude)
    s (get_locations_keep g dur names)
  constructor
  · intro hg
    have hlook := get_locations_keep_lookup g dur names s hs
      (by rw [hg]; intro h; cases h)
    rw [hg] at hlook
    unfold uniGeometry uniPlaces
    rw [hmap, hlook]
    rfl
  · intro hg
    have hchar0 := geoFold_places_lookup g dur names ⟨[], [], 0⟩ s
    simp only [List.lookup] at hchar0
    rw [if_neg (by intro hc; exact hc.2 hg)] at hchar0
    have hlook : (get_locations_keep g dur names).lookup s = none := hchar0
    unfold uniGeometry uniPlaces
    rw [hmap, hlook]
    rfl

/-- C8 witness: a no-hit search name receives the default point. -/
theorem C8_default_point_witness :
    uniGeometry oracleNohit durZero (Point.mk 14 50) ["Univerzita Alfa"]
      "Univerzita Alfa" = some (Point.mk 14 50) :=
  (C8_default_point oracleNohit durZero (Point.mk 14 50) ["Univerzita Alfa"]
    "Univerzita Alfa" (by decide)).1 rfl

/-- C8 counterexample: a search name whose lookup raises is absent from the
places table, so the left merge leaves its geometry null instead of the
default national point. -/
theorem C8_counterexample :
    uniGeometry oracleErr durZero (Point.mk 14 50) ["Univerzita Alfa"]
      "Univerzita Alfa" = none := rfl

/-- C9: a school row whose composite address fails to geocode (no hit, or a
raised exception) is absent from the `merge_locations` output: the inner
merge keeps only addresses present in the geocoded mapping and substitutes
no fallback point. -/
theorem C9_failed_rows_dropped (g : String → GeoOutcome) (dur : String → ℚ)
    (bigtable : List SchoolRow) (r : SchoolRow)
    (hfail : g r.address = GeoOutcome.nohit ∨
      g r.address = GeoOutcome.error) :
    ∀ p, (r, p) ∉ merge_locations g dur bigtable := by
  intro p hm
  unfold merge_locations at hm
  obtain ⟨r0, hr0mem, hf⟩ := List.mem_filterMap.1 hm
  rw [Option.map_eq_some'] at hf
  obtain ⟨q, hq, he⟩ := hf
  injection he with h1 h2
  subst h1
  subst h2
  have hmem2 := assoc_mem_of_lookup_eq_some hq
  obtain ⟨_, l, hl, _⟩ := get_locations_mem g dur
    ((bigtable.map SchoolRow.address).eraseDups) r0.address q hmem2
  rcases hfail with hf2 | hf2 <;> rw [hf2] at hl <;> cases hl

/-- C9 witness: a school row whose address gets no geocoder hit never
appears in the merged output. -/
theorem C9_failed_rows_dropped_witness :
    ((⟨"Zakladni skola", "Praha, Dlouha 1"⟩ : SchoolRow), Point.mk 14 50) ∉
      merge_locations oracleNohit durZero
        [⟨"Zakladni skola", "Praha, Dlouha 1"⟩] :=
  C9_failed_rows_dropped oracleNohit durZero
    [⟨"Zakladni skola", "Praha, Dlouha 1"⟩]
    ⟨"Zakladni skola", "Praha, Dlouha 1"⟩ (Or.inl rfl) (Point.mk 14 50)

/-- C7 (amended): when `read_html` raises, an empty table is returned; when
it parses tables and the selected index (the 3rd table for exactly 3 parsed
tables, else the 4th) exists and still has a row after dropping all-NaN
rows, that row becomes the header and the remaining rows the data.  As
literally stated the claim fails for pages with fewer tables: selecting the
4th table of a 2-table page raises an uncaught IndexError instead of
returning a table, see the counterexample. -/
theorem C7_parse_table (raw : List RawTable) (t : RawTable)
    (hd : List Cell) (rest : List (List Cell))
    (ht : raw[if raw.length == 3 then 2 else 3]? = some t)
    (hfilter : t.filter (fun row => !(row.all Option.isNone)) = hd :: rest) :
    parse_table_details (ParseOutcome.tables raw) = Except.ok ⟨hd, rest⟩ ∧
      parse_table_details ParseOutcome.failure = Except.ok ⟨[], []⟩ := by
  constructor
  · simp only [parse_table_details]
    rw [ht]
    simp only [hfilter]
  · rfl

/-- C7 witness: a four-table page; the 4th table is selected, its first row
becomes the header and its remaining row the data. -/
theorem C7_parse_table_witness :
    parse_table_details (ParseOutcome.tables rawTablesW) =
        Except.ok ⟨[some "Id", some "Nazev"], [[some "1", some "Skola"]]⟩ ∧
      parse_table_details ParseOutcome.failure = Except.ok ⟨[], []⟩ :=
  C7_parse_table rawTablesW
    [[some "Id", some "Nazev"], [some "1", some "Skola"]]
    [some "Id", some "Nazev"] [[some "1", some "Skola"]]
    (by decide) (by decide)

/-- C7 counterexample: a page with exactly two parsed tables.  The code
indexes the 4th table, which does not exist, so the uncaught IndexError
propagates (modelled as `Except.error ()`): neither a 4th table nor an
empty table results. -/
theorem C7_counterexample :
    parse_table_details (ParseOutcome.tables [[[some "a"]], [[some "b"]]]) =
      Except.error () := rfl

end CzechEdu
